import Mathlib

/-!
Verification of `wheel/metadata.py` (old-style PKG-INFO ↔ Metadata 2.0
conversion).  The Python source is shallowly embedded: strings are lists
of characters, the RFC-822-style header block is an ordered list of
(key, value) pairs plus a free-text payload, and the structured metadata
document is an insertion-ordered association list mirroring a Python
`dict`.  Uncaught Python exceptions (KeyError, IndexError) are modelled
as `Except.error ()`.
-/

set_option maxRecDepth 4000

namespace Wheel

/-- Python strings are modelled as lists of characters. -/
abbrev Str := List Char

/-- Shorthand turning a Lean string literal into the model type. -/
def str (s : String) : Str := s.data

/-- The single-quote character (written via its code point to keep the
source free of quote literals). -/
def sq : Char := Char.ofNat 39

/-- The double-quote character. -/
def dq : Char := Char.ofNat 34

/-- The backslash character. -/
def bsl : Char := Char.ofNat 92

/-- Newline. -/
def nl : Char := '\n'

/-- Carriage return. -/
def cr : Char := '\r'

/-- Tab. -/
def tab : Char := '\t'

/-- ASCII lowering of a string, modelling `str.lower()` on header keys
(header keys are ASCII). -/
def lowerStr (s : Str) : Str := s.map Char.toLower

/-- `key.replace('-', '_')`, the outbound field-name normalization. -/
def normKey (s : Str) : Str := s.map (fun c => if c = '-' then '_' else c)

/-- Whitespace for `str.strip()` / `str.lstrip()` (ASCII whitespace; the
exotic Unicode space classes are not exercised by header values). -/
def isPySpace (c : Char) : Bool :=
  c == ' ' || c == tab || c == nl || c == cr || c == Char.ofNat 11 || c == Char.ofNat 12

/-- `str.lstrip()`. -/
def lstrip (s : Str) : Str := s.dropWhile isPySpace

/-- `str.strip()`. -/
def pyStrip (s : Str) : Str :=
  ((s.dropWhile isPySpace).reverse.dropWhile isPySpace).reverse

/-- The generator `unique(iterable)` from the source: drop every value
already seen, keeping first occurrences in order. -/
def uniqueGo {α : Type} [DecidableEq α] (seen : List α) : List α → List α
  | [] => []
  | x :: xs => if x ∈ seen then uniqueGo seen xs else x :: uniqueGo (x :: seen) xs

/-- `unique` from the source (first-occurrence deduplication). -/
def unique {α : Type} [DecidableEq α] (l : List α) : List α := uniqueGo [] l

/-- Python string comparison: lexicographic on code points. -/
def strLe : Str → Str → Bool
  | [], _ => true
  | _ :: _, [] => false
  | a :: as, b :: bs =>
    if a.toNat < b.toNat then true
    else if a.toNat = b.toNat then strLe as bs
    else false

/-- Ordered insertion for insertion sort. -/
def insertLe {α : Type} (le : α → α → Bool) (x : α) : List α → List α
  | [] => [x]
  | y :: ys => if le x y then x :: y :: ys else y :: insertLe le x ys

/-- Insertion sort, modelling Python `sorted` (ascending). -/
def insSort {α : Type} (le : α → α → Bool) : List α → List α
  | [] => []
  | x :: xs => insertLe le x (insSort le xs)

/-- `sep.join(parts)`. -/
def joinSep (sep : Str) : List Str → Str
  | [] => []
  | [x] => x
  | x :: xs => x ++ sep ++ joinSep sep xs

/-- `','.join(parts)`. -/
def joinComma (l : List Str) : Str := joinSep [','] l

/-- `'\n'.join(parts)`. -/
def joinNl (l : List Str) : Str := joinSep [nl] l

/-- Does `p` occur as a leading segment of `s`?  (`str.startswith`). -/
def strStarts : Str → Str → Bool
  | [], _ => true
  | _ :: _, [] => false
  | p :: ps, c :: cs => p == c && strStarts ps cs

/-- Index of the last occurrence of `c` in `s`, if any. -/
def lastIdx (s : Str) (c : Char) : Option Nat :=
  (List.range s.length).foldl
    (fun acc i => if s.getD i ' ' = c then some i else acc) none

/-- `text.split('\n')` (keeps empty parts; `""` gives `[""]`). -/
def splitOnNl : Str → List Str
  | [] => [[]]
  | c :: rest =>
    if c = nl then [] :: splitOnNl rest
    else
      match splitOnNl rest with
      | [] => [[c]]
      | l :: ls => (c :: l) :: ls

/-- The line-break set recognised by `str.splitlines`. -/
def isLineBreak (c : Char) : Bool :=
  c == nl || c == cr || c == Char.ofNat 11 || c == Char.ofNat 12 ||
  c == Char.ofNat 28 || c == Char.ofNat 29 || c == Char.ofNat 30 ||
  c == Char.ofNat 133 || c == Char.ofNat 8232 || c == Char.ofNat 8233

/-- `str.splitlines()`: split on line breaks (treating `\r\n` as one),
with no trailing empty line, and `[]` for the empty string.  A break
opens a (possibly empty) new line region; a plain character extends the
first line of the remainder (creating it for the final, break-less
tail). -/
def splitlines : Str → List Str
  | [] => []
  | '\r' :: '\n' :: rest => [] :: splitlines rest
  | c :: rest =>
    if isLineBreak c then [] :: splitlines rest
    else
      match splitlines rest with
      | [] => [[c]]
      | l :: ls => (c :: l) :: ls

/-! ## The header block (result of the external `read_pkg_info` reader) -/

/-- An RFC-822-style header block: ordered (key, value) pairs, keys may
repeat, plus the free-text payload.  This models the `email.message`
object handed to this module by the external reader. -/
structure PkgInfo where
  headers : List (Str × Str)
  payload : Str
deriving DecidableEq

/-- `pkg_info.get(name)` / `pkg_info[name]`: value of the first header
whose key matches case-insensitively, if any. -/
def getCI (pi_ : PkgInfo) (k : Str) : Option Str :=
  (pi_.headers.find? (fun kv => lowerStr kv.1 == lowerStr k)).map (fun kv => kv.2)

/-- `pkg_info.get_all(name)`: all values for a (case-insensitive) key,
in order. -/
def getAllCI (pi_ : PkgInfo) (k : Str) : List Str :=
  (pi_.headers.filter (fun kv => lowerStr kv.1 == lowerStr k)).map (fun kv => kv.2)

/-- `del pkg_info[name]`: drop every header matching case-insensitively. -/
def delCI (hs : List (Str × Str)) (k : Str) : List (Str × Str) :=
  hs.filter (fun kv => !(lowerStr kv.1 == lowerStr k))

/-- `pkg_info.keys()`: every key in order, repeats included. -/
def keysOf (pi_ : PkgInfo) : List Str := pi_.headers.map (fun kv => kv.1)

/-- The deduplicated lower-cased key iteration order of the forward
conversion: `unique(k.lower() for k in pkg_info.keys())`. -/
def uniqKeys (pi_ : PkgInfo) : List Str := unique ((keysOf pi_).map lowerStr)

/-- `email.message.Message.replace_header`: replace the value of the
first case-insensitively matching header in place (keeping its stored
key spelling); `none` models the `KeyError` when the key is absent. -/
def replaceFirstCI : List (Str × Str) → Str → Str → Option (List (Str × Str))
  | [], _, _ => none
  | (k0, v0) :: rest, k, v =>
    if lowerStr k0 = lowerStr k then some ((k0, v) :: rest)
    else (replaceFirstCI rest k v).map (fun r => (k0, v0) :: r)

/-- `pkg_info[name] = value`: append a header at the end. -/
def appendHeader (pi_ : PkgInfo) (k v : Str) : PkgInfo :=
  PkgInfo.mk (pi_.headers ++ [(k, v)]) pi_.payload

/-! ## The structured metadata document (a Python `dict`) -/

/-- A consolidated contact record `{email?, name?, role}`. -/
structure Contact where
  email : Option Str
  name : Option Str
  role : Str
deriving DecidableEq

/-- The value shapes stored in the metadata document. -/
inductive MVal where
  /-- a scalar string field -/
  | s (v : Str)
  /-- a list-of-strings field -/
  | sl (v : List Str)
  /-- `may_require`: records `{extra, dependencies}` -/
  | mayReq (v : List (Str × List Str))
  /-- `project_urls`: a key→string mapping -/
  | urls (v : List (Str × Str))
  /-- `contacts`: consolidated contact records -/
  | contacts (v : List Contact)
deriving DecidableEq

/-- The metadata document: an insertion-ordered association list with
unique keys, mirroring a Python `dict`. -/
abbrev Doc := List (Str × MVal)

/-- `d[k] = v`: update in place if the key exists, else append. -/
def dictSet : Doc → Str → MVal → Doc
  | [], k, v => [(k, v)]
  | (k0, v0) :: rest, k, v =>
    if k0 = k then (k0, v) :: rest else (k0, v0) :: dictSet rest k v

/-- `d.get(k)` (first occurrence). -/
def dictGet : Doc → Str → Option MVal
  | [], _ => none
  | (k0, v0) :: rest, k => if k0 = k then some v0 else dictGet rest k

/-- `k in d`. -/
def dictHasKey (d : Doc) (k : Str) : Bool := (dictGet d k).isSome

/-- `d.pop(k)`: remove the (first) entry for `k`, returning its value. -/
def dictPop : Doc → Str → Option MVal × Doc
  | [], _ => (none, [])
  | (k0, v0) :: rest, k =>
    if k0 = k then (some v0, rest)
    else ((dictPop rest k).1, (k0, v0) :: (dictPop rest k).2)

/-! ## Module constants -/

/-- `METADATA_VERSION = "2.0"`. -/
def METADATA_VERSION : Str := str "2.0"

/-- `PLURAL_FIELDS`: header key → plural output field name. -/
def PLURAL_FIELDS : List (Str × Str) :=
  [(str "classifier", str "classifiers"),
   (str "provides_dist", str "provides"),
   (str "provides_extra", str "extras")]

/-- Lookup in `PLURAL_FIELDS`. -/
def pluralLookup (k : Str) : Option Str :=
  (PLURAL_FIELDS.find? (fun kv => kv.1 == k)).map (fun kv => kv.2)

/-- `SKIP_FIELDS = set()`. -/
def SKIP_FIELDS : List Str := []

/-- `UNKNOWN_FIELDS`: keys whose `'UNKNOWN'` placeholder is suppressed. -/
def UNKNOWN_FIELDS : List Str :=
  [str "author", str "author_email", str "platform", str "home_page",
   str "license"]

/-! ## The requirement grouper (forward direction) -/

/-- `EXTRA_RE = re.compile("extra == '(?P<extra>.+)'")`, applied with
`re.match`: anchored at the start only.  The match succeeds when the
marker starts with `extra == '` and a further quote follows at least one
character later (before any newline, since `.` does not cross lines);
the greedy `.+` makes the captured name run to the *last* such quote. -/
def extraMatch (marker : Str) : Option Str :=
  if strStarts (str "extra == " ++ [sq]) marker then
    let rest := marker.drop (str "extra == " ++ [sq]).length
    let cut := rest.takeWhile (fun c => c != nl)
    match lastIdx cut sq with
    | some j => if 1 ≤ j then some (cut.take j) else none
    | none => none
  else none

/-- The part of a Requires-Dist value before the first semicolon
(`value.partition(';')`, first component) — stored verbatim. -/
def beforeSemi (v : Str) : Str := v.takeWhile (fun c => c != ';')

/-- The part after the first semicolon (`value.partition(';')`, third
component; empty when there is no semicolon). -/
def afterSemi (v : Str) : Str := (v.dropWhile (fun c => c != ';')).tail

/-- `defaultdict(list)` append: extend an existing bucket, or create a
new bucket at the end on first touch. -/
def bucketAdd : List (Str × List Str) → Str → Str → List (Str × List Str)
  | [], name, req => [(name, [req])]
  | (k, vs) :: rest, name, req =>
    if k = name then (k, vs ++ [req]) :: rest
    else (k, vs) :: bucketAdd rest name req

/-- One step of the requirement grouping loop (lines 76–85 of the
source): split on the first semicolon, trim the marker, and route the
untrimmed requirement part. -/
def groupStep (acc : List Str × List (Str × List Str)) (value : Str) :
    List Str × List (Str × List Str) :=
  if pyStrip (afterSemi value) ≠ [] then
    match extraMatch (pyStrip (afterSemi value)) with
    | some name => (acc.1, bucketAdd acc.2 name (beforeSemi value))
    | none => acc
  else (acc.1 ++ [beforeSemi value], acc.2)

/-- The requirement grouper: unconditional requirements plus extra-name
buckets, from the repeated Requires-Dist values. -/
def groupRequires (values : List Str) : List Str × List (Str × List Str) :=
  values.foldl groupStep ([], [])

/-! ## The description normalizer -/

/-- `textwrap.dedent`: blank out whitespace-only lines, compute the
longest common leading run of spaces/tabs over the remaining non-empty
lines, and strip it from every line. -/
def isIndentChar (c : Char) : Bool := c == ' ' || c == tab

/-- Longest common prefix of two strings (the margin-merging loop of
`textwrap.dedent`). -/
def commonPre : Str → Str → Str
  | a :: as, b :: bs => if a = b then a :: commonPre as bs else []
  | _, _ => []

/-- `textwrap.dedent(text)`. -/
def textwrapDedent (text : Str) : Str :=
  let lines := splitOnNl text
  let lines := lines.map (fun l =>
    if l ≠ [] ∧ l.all isIndentChar then [] else l)
  let indents := lines.filterMap (fun l =>
    if l.dropWhile isIndentChar ≠ [] then some (l.takeWhile isIndentChar)
    else none)
  let margin := match indents with
    | [] => []
    | i :: is => is.foldl commonPre i
  if margin ≠ [] then
    joinNl (lines.map (fun l =>
      if strStarts margin l then l.drop margin.length else l))
  else joinNl lines

/-- `dedent_description` on a native-text description value: lstrip the
first line, dedent the remaining lines as a block, and append a trailing
blank line.  `none` models the `IndexError` on an empty value (every
call site guards with a truthiness check, so the value is non-empty
there).  The byte-oriented surrogate-escape path (`raw_items` plus
`surrogateescape` decoding) concerns the external reader's raw
representation and is not modelled; all header values here are native
text. -/
def dedent_description (description : Str) : Option Str :=
  match splitlines description with
  | [] => none
  | first :: rest =>
    some (lstrip first ++ nl :: (textwrapDedent (joinNl rest) ++ [nl, nl]))

/-! ## The field classifier / document builder (forward conversion) -/

/-- The optional distutils `Distribution` side-object: `tests_require`
is the one attribute probed for; `none` models the `AttributeError`
(tolerated) path. -/
structure Distribution where
  tests_require : Option (List Str)

/-- Current `extras` list of the document (`extras` only ever holds a
list of strings). -/
def extrasList (meta : Doc) : List Str :=
  match dictGet meta (str "extras") with
  | some (MVal.sl l) => l
  | _ => []

/-- `if not 'extras' in metadata: metadata['extras'] = []`. -/
def ensureExtras (meta : Doc) : Doc :=
  if dictHasKey meta (str "extras") then meta
  else dictSet meta (str "extras") (MVal.sl [])

/-- `metadata['extras'].extend(xs)`. -/
def extendExtras (meta : Doc) (xs : List Str) : Doc :=
  dictSet meta (str "extras") (MVal.sl (extrasList meta ++ xs))

/-- The `requires_dist` branch of the classifier (lines 73–92). -/
def requiresDistBranch (pi_ : PkgInfo) (meta : Doc) (key : Str) : Doc :=
  let g := groupRequires (getAllCI pi_ key)
  let meta := dictSet meta (str "requires") (MVal.sl g.1)
  if g.2 ≠ [] then
    let sortedER := insSort (fun a b => strLe a.1 b.1) g.2
    let meta := dictSet meta (str "may_require") (MVal.mayReq sortedER)
    let meta := ensureExtras meta
    extendExtras meta (sortedER.map (fun b => b.1))
  else meta

/-- One iteration of the per-key rule chain (lines 61–103): skip rule,
placeholder suppression, pluralization, requirement rule, provides-extra
rule (unreachable: `provides_extra` is caught by the pluralization rule
first), home-page rule, default rule.  `key` is the lower-cased header
key from the iteration. -/
def processKey (pi_ : PkgInfo) (meta : Doc) (key : Str) : Doc :=
  if normKey key ∈ SKIP_FIELDS then meta
  else if normKey key ∈ UNKNOWN_FIELDS ∧ getCI pi_ key = some (str "UNKNOWN") then
    meta
  else
    match pluralLookup (normKey key) with
    | some plural => dictSet meta plural (MVal.sl (getAllCI pi_ key))
    | none =>
      if normKey key = str "requires_dist" then requiresDistBranch pi_ meta key
      else if normKey key = str "provides_extra" then
        extendExtras (ensureExtras meta) (getAllCI pi_ key)
      else if normKey key = str "home_page" then
        dictSet meta (str "project_urls")
          (MVal.urls [(str "Home", (getCI pi_ key).getD [])])
      else dictSet meta (normKey key) (MVal.s ((getCI pi_ key).getD []))

/-- The contact consolidation: pop the email and name pieces for one
role and build a record when at least one piece was present. -/
def popStrField (meta : Doc) (k : Str) : Option Str × Doc :=
  (match (dictPop meta k).1 with
   | some (MVal.s v) => some v
   | some _ => some []  -- contact keys only ever hold scalar strings
   | none => none,
   (dictPop meta k).2)

/-- Build one role's contact record (lines 121–128): pop the email then
the name piece; a record exists only if the popped contact dict is
non-empty, i.e. at least one piece was present. -/
def contactRecord (meta : Doc) (emailKey nameKey roleName : Str) :
    Option Contact :=
  if (popStrField meta emailKey).1 = none ∧
     (popStrField (popStrField meta emailKey).2 nameKey).1 = none then none
  else some (Contact.mk (popStrField meta emailKey).1
    (popStrField (popStrField meta emailKey).2 nameKey).1 roleName)

/-- The document left over after popping one role's two pieces. -/
def contactRest (meta : Doc) (emailKey nameKey : Str) : Doc :=
  (popStrField (popStrField meta emailKey).2 nameKey).2

/-- The contact consolidator (lines 119–130): author role first, then
maintainer (popping from the author-popped document), with the raw
scalar fields removed and a `contacts` entry added only when at least
one record was produced. -/
def handleContacts (meta : Doc) : Doc :=
  if (contactRecord meta (str "author_email") (str "author") (str "author")).toList ++
     (contactRecord (contactRest meta (str "author_email") (str "author"))
       (str "maintainer_email") (str "maintainer") (str "maintainer")).toList = []
  then
    contactRest (contactRest meta (str "author_email") (str "author"))
      (str "maintainer_email") (str "maintainer")
  else
    dictSet (contactRest (contactRest meta (str "author_email") (str "author"))
        (str "maintainer_email") (str "maintainer")) (str "contacts")
      (MVal.contacts
        ((contactRecord meta (str "author_email") (str "author") (str "author")).toList ++
         (contactRecord (contactRest meta (str "author_email") (str "author"))
           (str "maintainer_email") (str "maintainer") (str "maintainer")).toList))

/-- The forward conversion after the description step: iterate the given
key list, set `metadata_version`, sort-and-deduplicate `extras` (the
bare `metadata['extras']` read raises `KeyError` — modelled as
`Except.error ()` — when no extras entry was ever created), add the
distribution's test requirements, and consolidate contacts. -/
def pkginfo_to_dictAux (pi_ : PkgInfo) (meta0 : Doc) (keyList : List Str)
    (distribution : Option Distribution) : Except Unit Doc :=
  let meta := keyList.foldl (processKey pi_) meta0
  let meta := dictSet meta (str "metadata_version") (MVal.s METADATA_VERSION)
  match dictGet meta (str "extras") with
  | some (MVal.sl l) =>
    let meta := dictSet meta (str "extras") (MVal.sl (insSort strLe (unique l)))
    let meta := match distribution with
      | some dist =>
        match dist.tests_require with
        | some reqs =>
          if reqs ≠ [] then dictSet meta (str "test_requires") (MVal.sl reqs)
          else meta
        | none => meta
      | none => meta
    Except.ok (handleContacts meta)
  | some _ => Except.error ()  -- unreachable: extras only ever holds a list
  | none => Except.error ()    -- KeyError: no extras entry was ever created

/-- `pkginfo_to_dict`: the forward conversion.  The description is
extracted first: a truthy Description header is dedented and the header
deleted; otherwise a truthy payload is used verbatim. -/
def pkginfo_to_dict (pkg_info : PkgInfo) (distribution : Option Distribution) :
    Except Unit Doc :=
  let payloadMeta : Doc :=
    if pkg_info.payload ≠ [] then [(str "description", MVal.s pkg_info.payload)]
    else []
  match getCI pkg_info (str "Description") with
  | some d =>
    if d ≠ [] then
      match dedent_description d with
      | some dd =>
        let pi_ := PkgInfo.mk (delCI pkg_info.headers (str "Description"))
          pkg_info.payload
        pkginfo_to_dictAux pi_ [(str "description", MVal.s dd)] (uniqKeys pi_)
          distribution
      | none => Except.error ()
    else pkginfo_to_dictAux pkg_info payloadMeta (uniqKeys pkg_info) distribution
  | none => pkginfo_to_dictAux pkg_info payloadMeta (uniqKeys pkg_info) distribution

/-- Project an `Except` result to its document (empty on error). -/
def docOf : Except Unit Doc → Doc
  | Except.ok d => d
  | Except.error _ => []

/-- Did the conversion complete without an uncaught exception? -/
def isOk {α : Type} : Except Unit α → Bool
  | Except.ok _ => true
  | Except.error _ => false

/-! ## The requirement composer (reverse direction) -/

/-- A Parsed Requirement as produced by the external requirement-string
parser (`pkg_resources.Requirement.parse`): project name, extras, and
(operator, version) specs. -/
structure Requirement where
  project_name : Str
  extras : List Str
  specs : List (Str × Str)

/-- `requires_to_requires_dist`: compose the version predicates.  Each
(op, version) pair is concatenated with no separator; a non-empty spec
list is comma-joined and wrapped as `" (...)"` (note the leading
space); an empty spec list yields the empty string. -/
def requires_to_requires_dist (requirement : Requirement) : Str :=
  let requires_dist := requirement.specs.map (fun p => p.1 ++ p.2)
  if requires_dist = [] then []
  else str " (" ++ joinComma requires_dist ++ str ")"

/-- The bracketed extras segment of a composed Requires-Dist line
(lines 166–168): comma-join the extras and bracket the result only if
the joined string is non-empty. -/
def extrasSegment (r : Requirement) : Str :=
  let extras := joinComma r.extras
  if extras ≠ [] then str "[" ++ extras ++ str "]" else []

/-- A lowercase hexadecimal digit, for `repr`'s `\xNN` escapes. -/
def hexDigit (n : Nat) : Char :=
  if n < 10 then Char.ofNat (48 + n) else Char.ofNat (87 + n)

/-- Python `repr` of a string, as used for the extra name in
`'; extra == %s' % repr(extra)`: single quotes unless the string holds a
single quote and no double quote; backslash and the chosen quote are
escaped, `\t`/`\n`/`\r` get their mnemonic escapes, and the remaining
ASCII control characters (below `0x20`, and `0x7f`) get `\xNN`.
Non-ASCII characters are kept literal (CPython additionally escapes
those its Unicode tables class as non-printable; header-borne extra
names are ASCII, and the C4 theorem states its condition hypothesis
through `pyRepr` itself).  `escChar` escapes one character given the
chosen quote. -/
def escChar (qc : Char) (c : Char) : Str :=
  if c = bsl then [bsl, bsl]
  else if c = qc then [bsl, qc]
  else if c = nl then [bsl, 'n']
  else if c = cr then [bsl, 'r']
  else if c = tab then [bsl, 't']
  else if c.toNat < 32 ∨ c.toNat = 127 then
    [bsl, 'x', hexDigit (c.toNat / 16), hexDigit (c.toNat % 16)]
  else [c]

/-- Escape every character of a string for `repr`. -/
def escStr (qc : Char) : Str → Str
  | [] => []
  | c :: cs => escChar qc c ++ escStr qc cs

/-- Quote choice plus escaping of `repr`. -/
def pyRepr (s : Str) : Str :=
  let qc := if sq ∈ s ∧ ¬ dq ∈ s then dq else sq
  qc :: (escStr qc s ++ [qc])

/-- The `'; extra == %s' % repr(extra)` condition, empty when no truthy
extra name is in force. -/
def conditionFor (extra : Option Str) : Str :=
  match extra with
  | some e => if e ≠ [] then str "; extra == " ++ pyRepr e else []
  | none => []

/-- One composed Requires-Dist header line (lines 163–169): project
name, bracketed extras, version-spec segment, condition. -/
def composeRequiresDist (r : Requirement) (condition : Str) : Str :=
  r.project_name ++ extrasSegment r ++ requires_to_requires_dist r ++ condition

/-- The requirements-listing fold of `pkginfo_to_metadata`: one
`Provides-Extra` header per truthy section name, one `Requires-Dist`
header per requirement line (the section's condition appended). -/
def foldSections (pi_ : PkgInfo) :
    List (Option Str × List Requirement) → PkgInfo
  | [] => pi_
  | (extra, reqs) :: rest =>
    let pi_ := match extra with
      | some e => if e ≠ [] then appendHeader pi_ (str "Provides-Extra") e else pi_
      | none => pi_
    let condition := conditionFor extra
    let pi_ := reqs.foldl
      (fun acc r => appendHeader acc (str "Requires-Dist")
        (composeRequiresDist r condition)) pi_
    foldSections pi_ rest

/-- The description phase of the reverse conversion (lines 171–174): a
truthy Description header is deleted and its normalized form becomes
the payload. -/
def descPhase (pi2 : PkgInfo) : Except Unit PkgInfo :=
  match getCI pi2 (str "Description") with
  | some d =>
    if d ≠ [] then
      match dedent_description d with
      | some dd =>
        Except.ok (PkgInfo.mk (delCI pi2.headers (str "Description")) dd)
      | none => Except.error ()
    else Except.ok pi2
  | none => Except.ok pi2

/-- `pkginfo_to_metadata`: the reverse conversion.  The header block's
`Metadata-Version` is replaced (KeyError — modelled as error — when
absent), the parsed requirements listing (already read and sectioned by
the external collaborators; `none` when `requires.txt` does not exist)
is appended as Provides-Extra / Requires-Dist headers, and a truthy
description moves, normalized, from its header into the payload. -/
def pkginfo_to_metadata (pkg_info : PkgInfo)
    (listing : Option (List (Option Str × List Requirement))) :
    Except Unit PkgInfo :=
  match replaceFirstCI pkg_info.headers (str "Metadata-Version") METADATA_VERSION with
  | none => Except.error ()
  | some hs =>
    descPhase (match listing with
      | some sections => foldSections (PkgInfo.mk hs pkg_info.payload) sections
      | none => PkgInfo.mk hs pkg_info.payload)

/-! ## Spec-worded definitions (for refinement comparisons only) -/

/-- Claim C3's reading of "the extra-equality form `extra == '<name>'`":
the whole trimmed marker equals that shape for some non-empty name. -/
def isExtraEqForm (m : Str) : Prop :=
  ∃ name : Str, name ≠ [] ∧ m = str "extra == " ++ (sq :: (name ++ [sq]))

/-- Claim C4's composed line exactly as the claim words it: project
name, bracketed extras when the extras list is non-empty, parenthesized
specs (with no space before the parenthesis) when the spec list is
non-empty, then the condition when an extra name was supplied. -/
def composeRequiresDistClaimed (r : Requirement) (extra : Option Str) : Str :=
  r.project_name
  ++ (if r.extras ≠ [] then str "[" ++ joinComma r.extras ++ str "]" else [])
  ++ (if r.specs ≠ [] then
        str "(" ++ joinComma (r.specs.map (fun p => p.1 ++ p.2)) ++ str ")"
      else [])
  ++ (match extra with
      | some e => str "; extra == " ++ (sq :: (e ++ [sq]))
      | none => [])

/-- Claim C4 as amended: identical to the claim's wording except that
the parenthesized spec segment is preceded by a single space. -/
def composeRequiresDistAmended (r : Requirement) (extra : Option Str) : Str :=
  r.project_name
  ++ (if r.extras ≠ [] then str "[" ++ joinComma r.extras ++ str "]" else [])
  ++ (if r.specs ≠ [] then
        str " (" ++ joinComma (r.specs.map (fun p => p.1 ++ p.2)) ++ str ")"
      else [])
  ++ (match extra with
      | some e => str "; extra == " ++ (sq :: (e ++ [sq]))
      | none => [])

/-- The scalar-string value of a document field, if it is one. -/
def getStr (meta : Doc) (k : Str) : Option Str :=
  match dictGet meta k with
  | some (MVal.s v) => some v
  | _ => none

/-- Is a document value a scalar string? -/
def isScalar : MVal → Bool
  | MVal.s _ => true
  | _ => false

/-- Claim C7's author record, as the spec words it: a record exists only
if at least one of the name/email pieces is present, carries exactly the
present pieces, and is tagged with the role. -/
def authorRecordSpec (meta : Doc) : Option Contact :=
  if getStr meta (str "author_email") = none ∧ getStr meta (str "author") = none
  then none
  else some (Contact.mk (getStr meta (str "author_email"))
    (getStr meta (str "author")) (str "author"))

/-- Claim C7's maintainer record, as the spec words it. -/
def maintainerRecordSpec (meta : Doc) : Option Contact :=
  if getStr meta (str "maintainer_email") = none ∧
     getStr meta (str "maintainer") = none
  then none
  else some (Contact.mk (getStr meta (str "maintainer_email"))
    (getStr meta (str "maintainer")) (str "maintainer"))

/-- The document with the four raw contact-piece fields removed, in the
order the consolidator pops them. -/
def remContactFields (meta : Doc) : Doc :=
  contactRest (contactRest meta (str "author_email") (str "author"))
    (str "maintainer_email") (str "maintainer")

/-! ## Claim theorems -/

/-- C1: the claim states that `pkginfo_to_dict` completes without error
on every well-formed header block, in particular one with no
Provides-Extra header and no extra-conditioned Requires-Dist entry.  The
code instead evaluates `metadata['extras']` unconditionally at the end,
which raises `KeyError` exactly when no extras were ever recorded: on
the header block `Name: foo` the conversion errors. -/
theorem c1_keyerror_when_no_extras :
    isOk (pkginfo_to_dict (PkgInfo.mk [(str "Name", str "foo")] []) none) = false := by
  decide

/-- C2: a header block whose Requires-Dist values are exactly
`foo>=1.0` and `bar; extra == 'dev'` converts to a document with
`requires == ["foo>=1.0"]`, `may_require == [{extra: "dev",
dependencies: ["bar"]}]`, and `extras == ["dev"]`. -/
theorem c2_requires_dist_roundtrip :
    isOk (pkginfo_to_dict (PkgInfo.mk
      [(str "Requires-Dist", str "foo>=1.0"),
       (str "Requires-Dist", str "bar; extra == " ++ (sq :: (str "dev" ++ [sq])))]
      []) none) = true ∧
    dictGet (docOf (pkginfo_to_dict (PkgInfo.mk
      [(str "Requires-Dist", str "foo>=1.0"),
       (str "Requires-Dist", str "bar; extra == " ++ (sq :: (str "dev" ++ [sq])))]
      []) none)) (str "requires") = some (MVal.sl [str "foo>=1.0"]) ∧
    dictGet (docOf (pkginfo_to_dict (PkgInfo.mk
      [(str "Requires-Dist", str "foo>=1.0"),
       (str "Requires-Dist", str "bar; extra == " ++ (sq :: (str "dev" ++ [sq])))]
      []) none)) (str "may_require") =
        some (MVal.mayReq [(str "dev", [str "bar"])]) ∧
    dictGet (docOf (pkginfo_to_dict (PkgInfo.mk
      [(str "Requires-Dist", str "foo>=1.0"),
       (str "Requires-Dist", str "bar; extra == " ++ (sq :: (str "dev" ++ [sq])))]
      []) none)) (str "extras") = some (MVal.sl [str "dev"]) := by
  decide

/-- C5 counterexample: the claim states that `classifiers` has
duplicates removed, but on a block with two identical `Classifier`
headers the conversion stores both occurrences. -/
theorem c5_counterexample :
    isOk (pkginfo_to_dict (PkgInfo.mk
      [(str "Classifier", str "A"), (str "Classifier", str "A"),
       (str "Provides-Extra", str "x")] []) none) = true ∧
    dictGet (docOf (pkginfo_to_dict (PkgInfo.mk
      [(str "Classifier", str "A"), (str "Classifier", str "A"),
       (str "Provides-Extra", str "x")] []) none)) (str "classifiers") =
      some (MVal.sl [str "A", str "A"]) ∧
    ¬ ([str "A", str "A"] : List Str).Nodup := by
  decide

/-- C5 as amended: the pluralization rule stores *all* occurrences of
the header key, in input order, duplicates included — `classifiers` and
`provides` are `get_all` verbatim, with no deduplication (only `extras`
is deduplicated, later). -/
theorem c5_pluralization_verbatim (pi_ : PkgInfo) (meta : Doc) :
    processKey pi_ meta (str "classifier") =
      dictSet meta (str "classifiers") (MVal.sl (getAllCI pi_ (str "classifier"))) ∧
    processKey pi_ meta (str "provides-dist") =
      dictSet meta (str "provides") (MVal.sl (getAllCI pi_ (str "provides-dist"))) := by
  exact ⟨rfl, rfl⟩

/-- C4 counterexample: on the parsed requirement `foo` with the single
spec `(>=, 1.0)`, no extras and no condition, the code composes
`foo (>=1.0)` — with a space before the parenthesis — while the claim's
wording composes `foo(>=1.0)`. -/
theorem c4_counterexample :
    composeRequiresDist (Requirement.mk (str "foo") [] [(str ">=", str "1.0")])
      (conditionFor none) = str "foo (>=1.0)" ∧
    composeRequiresDistClaimed
      (Requirement.mk (str "foo") [] [(str ">=", str "1.0")]) none =
      str "foo(>=1.0)" ∧
    composeRequiresDist (Requirement.mk (str "foo") [] [(str ">=", str "1.0")])
      (conditionFor none) ≠
    composeRequiresDistClaimed
      (Requirement.mk (str "foo") [] [(str ">=", str "1.0")]) none := by
  decide

/-- C8: the description normalizer lstrips the first line, removes the
common leading indentation of the following lines as a block
(`textwrap.dedent`), and appends a trailing blank line; in particular
the three-line example of the claim normalizes exactly as stated. -/
theorem c8_dedent_description :
    (∀ (d first : Str) (rest : List Str),
      splitlines d = first :: rest →
      dedent_description d =
        some (lstrip first ++ nl :: (textwrapDedent (joinNl rest) ++ [nl, nl]))) ∧
    dedent_description
      (str "Para one.\n    Para two line A.\n    Para two line B.") =
      some (str "Para one.\nPara two line A.\nPara two line B.\n\n") := by
  constructor
  · intro d first rest h
    simp only [dedent_description, h]
  · decide

/-- Witness for C8 at a concrete two-line input. -/
theorem c8_dedent_description_witness :
    dedent_description (str "a\n b") = some (str "a\nb\n\n") := by
  have h := c8_dedent_description.1 (str "a\n b") (str "a") [str " b"] (by decide)
  rw [h]
  decide

/-- C3 counterexample: the Requires-Dist value
`bar; extra == 'x' and y` has a non-empty trimmed marker that is *not*
of the extra-equality form `extra == '<name>'` (it does not end in a
quote), yet the conversion places `bar` in the bucket of extra `x`
(`re.match` anchors only at the start, so trailing text after the
closing quote is accepted) — contradicting the claim that such a
requirement lands in no bucket. -/
theorem c3_counterexample :
    pyStrip (afterSemi (str "bar; extra == " ++ (sq :: (str "x" ++ (sq :: str " and y"))))) =
      str "extra == " ++ (sq :: (str "x" ++ (sq :: str " and y"))) ∧
    (str "extra == " ++ (sq :: (str "x" ++ (sq :: str " and y")))) ≠ [] ∧
    ¬ isExtraEqForm (str "extra == " ++ (sq :: (str "x" ++ (sq :: str " and y")))) ∧
    dictGet (docOf (pkginfo_to_dict (PkgInfo.mk
      [(str "Requires-Dist",
        str "bar; extra == " ++ (sq :: (str "x" ++ (sq :: str " and y"))))] [])
      none)) (str "may_require") =
      some (MVal.mayReq [(str "x", [str "bar"])]) := by
  refine ⟨by decide, by decide, ?_, by decide⟩
  rintro ⟨name, -, heq⟩
  have h2 := congrArg List.getLast? heq
  rw [show str "extra == " ++ (sq :: (name ++ [sq])) =
      (str "extra == " ++ (sq :: name)) ++ [sq] by simp] at h2
  rw [List.getLast?_concat] at h2
  exact absurd h2 (by decide)

/-- C3 as amended: a Requires-Dist value whose trimmed marker is
non-empty and is not matched by the *anchored-prefix* extra-equality
pattern (`re.match`: the marker must start with `extra == '` and have a
later closing quote; trailing text is ignored and the name runs to the
last quote) contributes nothing to the grouping: deleting the value
from the list leaves both the unconditional list and every bucket
unchanged. -/
theorem c3_unmatched_marker_dropped (pre post : List Str) (v : Str)
    (h1 : pyStrip (afterSemi v) ≠ [])
    (h2 : extraMatch (pyStrip (afterSemi v)) = none) :
    groupRequires (pre ++ v :: post) = groupRequires (pre ++ post) := by
  unfold groupRequires
  rw [List.foldl_append, List.foldl_append, List.foldl_cons]
  have hstep : groupStep (pre.foldl groupStep ([], [])) v =
      pre.foldl groupStep ([], []) := by
    simp only [groupStep]
    rw [if_pos h1, h2]
  rw [hstep]

/-- Witness for the amended C3 at a concrete marker
(`python_version >= '2.7'`). -/
theorem c3_unmatched_marker_dropped_witness :
    groupRequires ([str "a"] ++
      (str "baz; python_version >= " ++ (sq :: (str "2.7" ++ [sq]))) :: [str "b"]) =
    groupRequires ([str "a"] ++ [str "b"]) := by
  exact c3_unmatched_marker_dropped [str "a"] [str "b"] _ (by decide) (by decide)

/-- Bucket membership traces back to an existing bucket or to the newly
appended requirement. -/
theorem bucketAdd_mem (l : List (Str × List Str)) (name req : Str)
    (b : Str × List Str) (hb : b ∈ bucketAdd l name req) (dep : Str)
    (hdep : dep ∈ b.2) :
    (∃ b0 ∈ l, dep ∈ b0.2) ∨ dep = req := by
  induction l with
  | nil =>
    simp only [bucketAdd, List.mem_singleton] at hb
    subst hb
    simp only [List.mem_singleton] at hdep
    exact Or.inr hdep
  | cons hd tl ih =>
    obtain ⟨k, vs⟩ := hd
    simp only [bucketAdd] at hb
    by_cases hk : k = name
    · rw [if_pos hk] at hb
      rcases List.mem_cons.1 hb with rfl | hmem
      · rcases List.mem_append.1 hdep with h | h
        · exact Or.inl ⟨(k, vs), List.mem_cons_self _ _, h⟩
        · exact Or.inr (List.mem_singleton.1 h)
      · exact Or.inl ⟨b, List.mem_cons_of_mem _ hmem, hdep⟩
    · rw [if_neg hk] at hb
      rcases List.mem_cons.1 hb with rfl | hmem
      · exact Or.inl ⟨(k, vs), List.mem_cons_self _ _, hdep⟩
      · rcases ih hmem with ⟨b0, hb0, hdb0⟩ | h
        · exact Or.inl ⟨b0, List.mem_cons_of_mem _ hb0, hdb0⟩
        · exact Or.inr h

/-- Every dependency string in the grouper's output satisfies any
property enjoyed by the raw before-semicolon prefixes of the inputs
(and of whatever the accumulator already held). -/
theorem groupRequires_sources (values : List Str)
    (acc : List Str × List (Str × List Str)) (P : Str → Prop)
    (hacc : ∀ dep, dep ∈ acc.1 ∨ (∃ b ∈ acc.2, dep ∈ b.2) → P dep)
    (hvals : ∀ v ∈ values, P (beforeSemi v)) :
    ∀ dep, dep ∈ (values.foldl groupStep acc).1 ∨
      (∃ b ∈ (values.foldl groupStep acc).2, dep ∈ b.2) → P dep := by
  induction values generalizing acc with
  | nil => simpa using hacc
  | cons v vs ih =>
    intro dep hdep
    rw [List.foldl_cons] at hdep
    refine ih (groupStep acc v) ?_
      (fun w hw => hvals w (List.mem_cons_of_mem _ hw)) dep hdep
    intro d hd
    simp only [groupStep] at hd
    by_cases hm : pyStrip (afterSemi v) ≠ []
    · rw [if_pos hm] at hd
      rcases hmatch : extraMatch (pyStrip (afterSemi v)) with _ | name
      · rw [hmatch] at hd
        exact hacc d hd
      · rw [hmatch] at hd
        rcases hd with h | ⟨b, hb, hdb⟩
        · exact hacc d (Or.inl h)
        · rcases bucketAdd_mem acc.2 name (beforeSemi v) b hb d hdb with
            ⟨b0, hb0, hdb0⟩ | rfl
          · exact hacc d (Or.inr ⟨b0, hb0, hdb0⟩)
          · exact hvals v (List.mem_cons_self _ _)
    · rw [if_neg hm] at hd
      rcases hd with h | hb
      · rcases List.mem_append.1 h with h1 | h1
        · exact hacc d (Or.inl h1)
        · rw [List.mem_singleton] at h1
          subst h1
          exact hvals v (List.mem_cons_self _ _)
      · exact hacc d (Or.inr hb)

/-- C10: every dependency string the grouper stores — in the
unconditional list or in any extra bucket — is exactly the before-first-
semicolon prefix of an input value, verbatim (no whitespace trimming;
only the marker after the semicolon is trimmed); in particular
`foo ; extra == 'x'` stores `"foo "` with its trailing space. -/
theorem c10_requirement_verbatim :
    (∀ (values : List Str) (dep : Str),
      dep ∈ (groupRequires values).1 ∨
        (∃ b ∈ (groupRequires values).2, dep ∈ b.2) →
      ∃ v ∈ values, dep = beforeSemi v) ∧
    groupRequires [str "foo ; extra == " ++ (sq :: (str "x" ++ [sq]))] =
      ([], [(str "x", [str "foo "])]) := by
  constructor
  · intro values dep hdep
    refine groupRequires_sources values ([], [])
      (fun d => ∃ v ∈ values, d = beforeSemi v) ?_ (fun v hv => ⟨v, hv, rfl⟩)
      dep hdep
    rintro d (h | ⟨b, hb, -⟩)
    · simp at h
    · simp at hb
  · decide

/-- Witness for C10: the stored dependency of the single bucketed value
is its raw prefix with the trailing space kept. -/
theorem c10_requirement_verbatim_witness :
    str "foo " = beforeSemi (str "foo ; extra == " ++ (sq :: (str "x" ++ [sq]))) := by
  obtain ⟨v, hv, heq⟩ := c10_requirement_verbatim.1
    [str "foo ; extra == " ++ (sq :: (str "x" ++ [sq]))] (str "foo ") (by decide)
  rw [List.mem_singleton] at hv
  rw [hv] at heq
  exact heq

/-- C6: a header key whose normalized form is in the placeholder set
and whose (first) value is `UNKNOWN` contributes nothing at all to the
forward conversion: removing that key from the iteration leaves the
entire resulting document — every field, and every piece of every
contact record — unchanged. -/
theorem c6_placeholder_suppression (pi_ : PkgInfo) (meta0 : Doc)
    (pre post : List Str) (lk : Str) (dist : Option Distribution)
    (h1 : normKey lk ∈ UNKNOWN_FIELDS)
    (h2 : getCI pi_ lk = some (str "UNKNOWN")) :
    pkginfo_to_dictAux pi_ meta0 (pre ++ lk :: post) dist =
      pkginfo_to_dictAux pi_ meta0 (pre ++ post) dist := by
  have hstep : ∀ meta : Doc, processKey pi_ meta lk = meta := by
    intro meta
    simp only [processKey]
    rw [if_neg (by simp [SKIP_FIELDS]), if_pos ⟨h1, h2⟩]
  have hfold : (pre ++ lk :: post).foldl (processKey pi_) meta0 =
      (pre ++ post).foldl (processKey pi_) meta0 := by
    rw [List.foldl_append, List.foldl_append, List.foldl_cons, hstep]
  simp only [pkginfo_to_dictAux, hfold]

/-- Witness for C6: dropping a suppressed `Author-email: UNKNOWN` key
from the iteration changes nothing on a concrete block. -/
theorem c6_placeholder_suppression_witness :
    normKey (str "author-email") ∈ UNKNOWN_FIELDS ∧
    getCI (PkgInfo.mk [(str "Author-email", str "UNKNOWN"),
      (str "Name", str "n"), (str "Provides-Extra", str "x")] [])
      (str "author-email") = some (str "UNKNOWN") ∧
    pkginfo_to_dictAux (PkgInfo.mk [(str "Author-email", str "UNKNOWN"),
      (str "Name", str "n"), (str "Provides-Extra", str "x")] []) []
      ([] ++ (str "author-email") :: [str "name", str "provides-extra"]) none =
    pkginfo_to_dictAux (PkgInfo.mk [(str "Author-email", str "UNKNOWN"),
      (str "Name", str "n"), (str "Provides-Extra", str "x")] []) []
      ([] ++ [str "name", str "provides-extra"]) none := by
  refine ⟨by decide, by decide, ?_⟩
  exact c6_placeholder_suppression _ [] [] [str "name", str "provides-extra"]
    (str "author-email") none (by decide) (by decide)

/-- C4 as amended: the composed Requires-Dist line is exactly the
project name, the bracketed comma-joined extras only if the extras list
is non-empty, a *single space* followed by the parenthesized
comma-joined operator+version pairs only if the spec list is non-empty
(an empty spec list yields no parenthetical segment at all), and the
`; extra == '<name>'` condition only if an extra name was supplied.
The two hypotheses delimit the claim's domain through the program's own
helpers, with no independent character predicate: the comma-joined
extras string is empty exactly when the extras list is (ruling out
degenerate all-empty extras names), and any supplied extra name is
non-empty with a plainly single-quoted `repr`. -/
theorem c4_composed_line (r : Requirement) (extra : Option Str)
    (hex : joinComma r.extras = [] ↔ r.extras = [])
    (hpl : ∀ e : Str, extra = some e → e ≠ [] ∧ pyRepr e = sq :: (e ++ [sq])) :
    composeRequiresDist r (conditionFor extra) =
      composeRequiresDistAmended r extra := by
  have hA : extrasSegment r =
      (if r.extras ≠ [] then str "[" ++ joinComma r.extras ++ str "]" else []) := by
    simp only [extrasSegment]
    rcases hext : r.extras with _ | ⟨x, xs⟩
    · simp [joinComma, joinSep]
    · rw [hext] at hex
      have hne : joinComma (x :: xs) ≠ [] :=
        fun hj => List.cons_ne_nil x xs (hex.1 hj)
      rw [if_pos hne, if_pos (List.cons_ne_nil x xs)]
  have hB : requires_to_requires_dist r =
      (if r.specs ≠ [] then
        str " (" ++ joinComma (r.specs.map (fun p => p.1 ++ p.2)) ++ str ")"
      else []) := by
    simp only [requires_to_requires_dist]
    rcases r.specs with _ | ⟨a, as⟩
    · simp
    · simp
  cases extra with
  | none =>
    simp only [composeRequiresDist, composeRequiresDistAmended, hA, hB,
      conditionFor]
  | some e =>
    obtain ⟨he, hrep⟩ := hpl e rfl
    simp only [composeRequiresDist, composeRequiresDistAmended, hA, hB,
      conditionFor]
    rw [if_pos he, hrep]

/-- Witness for the amended C4 at a concrete requirement with extras,
two specs, and a condition whose `repr` is evaluated plain. -/
theorem c4_composed_line_witness :
    composeRequiresDist (Requirement.mk (str "foo") [str "x"]
        [(str ">=", str "1.0"), (str "<", str "2")])
      (conditionFor (some (str "dev"))) =
    composeRequiresDistAmended (Requirement.mk (str "foo") [str "x"]
        [(str ">=", str "1.0"), (str "<", str "2")]) (some (str "dev")) := by
  exact c4_composed_line _ _ (by decide)
    (by intro e he
        injection he with h
        subst h
        exact ⟨by decide, by decide⟩)

/-! ### Dictionary lemmas for the contact consolidator -/

/-- Popping returns the same value lookup finds. -/
theorem dictPop_fst (d : Doc) (k : Str) : (dictPop d k).1 = dictGet d k := by
  induction d with
  | nil => rfl
  | cons hd tl ih =>
    obtain ⟨k0, v0⟩ := hd
    by_cases h : k0 = k
    · simp [dictPop, dictGet, h]
    · simp [dictPop, dictGet, h, ih]

/-- Popping one key does not change lookups of other keys. -/
theorem dictGet_dictPop_ne (d : Doc) (k k' : Str) (h : k' ≠ k) :
    dictGet (dictPop d k).2 k' = dictGet d k' := by
  induction d with
  | nil => rfl
  | cons hd tl ih =>
    obtain ⟨k0, v0⟩ := hd
    by_cases h0 : k0 = k
    · have : ¬ k0 = k' := fun hh => h (hh ▸ h0.symm ▸ rfl)
      simp [dictPop, dictGet, h0, this, Ne.symm h]
    · by_cases h1 : k0 = k'
      · simp [dictPop, dictGet, h0, h1, h]
      · simp [dictPop, dictGet, h0, h1, ih]

/-- The keys of a popped dictionary form a sublist of the original keys. -/
theorem keys_dictPop_sublist (d : Doc) (k : Str) :
    List.Sublist ((dictPop d k).2.map Prod.fst) (d.map Prod.fst) := by
  induction d with
  | nil => simp [dictPop]
  | cons hd tl ih =>
    obtain ⟨k0, v0⟩ := hd
    by_cases h : k0 = k
    · simp only [dictPop, if_pos h, List.map_cons]
      exact List.Sublist.cons _ (List.Sublist.refl _)
    · simp only [dictPop, if_neg h, List.map_cons]
      exact List.Sublist.cons₂ _ ih

/-- Lookup of an absent key gives nothing. -/
theorem dictGet_of_not_mem (d : Doc) (k : Str) (h : ¬ k ∈ d.map Prod.fst) :
    dictGet d k = none := by
  induction d with
  | nil => rfl
  | cons hd tl ih =>
    obtain ⟨k0, v0⟩ := hd
    simp only [List.map_cons, List.mem_cons, not_or] at h
    simp only [dictGet, if_neg (fun hh : k0 = k => h.1 (hh ▸ rfl))]
    exact ih h.2

/-- In a duplicate-free dictionary, a popped key is gone. -/
theorem dictGet_dictPop_self (d : Doc) (k : Str)
    (hnd : (d.map Prod.fst).Nodup) : dictGet (dictPop d k).2 k = none := by
  induction d with
  | nil => rfl
  | cons hd tl ih =>
    obtain ⟨k0, v0⟩ := hd
    simp only [List.map_cons, List.nodup_cons] at hnd
    by_cases h : k0 = k
    · simp only [dictPop, if_pos h]
      exact dictGet_of_not_mem tl k (h ▸ hnd.1)
    · simp only [dictPop, if_neg h, dictGet, if_neg h]
      exact ih hnd.2

/-- Popping preserves key uniqueness. -/
theorem nodup_dictPop (d : Doc) (k : Str) (hnd : (d.map Prod.fst).Nodup) :
    ((dictPop d k).2.map Prod.fst).Nodup :=
  List.Nodup.sublist (keys_dictPop_sublist d k) hnd

/-- Setting a key makes it present with that value. -/
theorem dictGet_dictSet_self (d : Doc) (k : Str) (v : MVal) :
    dictGet (dictSet d k v) k = some v := by
  induction d with
  | nil => simp [dictSet, dictGet]
  | cons hd tl ih =>
    obtain ⟨k0, v0⟩ := hd
    by_cases h : k0 = k
    · simp [dictSet, dictGet, h]
    · simp [dictSet, dictGet, h, ih]

/-- Setting one key does not change lookups of other keys. -/
theorem dictGet_dictSet_ne (d : Doc) (k k' : Str) (v : MVal) (h : k' ≠ k) :
    dictGet (dictSet d k v) k' = dictGet d k' := by
  induction d with
  | nil =>
    simp only [dictSet, dictGet, if_neg (fun hh : k = k' => h hh.symm)]
  | cons hd tl ih =>
    obtain ⟨k0, v0⟩ := hd
    by_cases h0 : k0 = k
    · have : ¬ k0 = k' := fun hh => h (hh ▸ h0.symm ▸ rfl)
      simp [dictSet, dictGet, h0, this, Ne.symm h]
    · by_cases h1 : k0 = k'
      · simp [dictSet, dictGet, h0, h1, h]
      · simp [dictSet, dictGet, h0, h1, ih]

/-- The leftover document of a pop-for-string. -/
theorem popStrField_snd (meta : Doc) (k : Str) :
    (popStrField meta k).2 = (dictPop meta k).2 := rfl

/-- Under the scalar hypothesis, the popped piece is the scalar lookup. -/
theorem popStrField_fst (meta : Doc) (k : Str)
    (h : (dictGet meta k).all isScalar) :
    (popStrField meta k).1 = getStr meta k := by
  simp only [popStrField, getStr, dictPop_fst]
  cases hget : dictGet meta k with
  | none => rfl
  | some v =>
    rw [hget] at h
    cases v with
    | s w => rfl
    | sl w => simp [Option.all, isScalar] at h
    | mayReq w => simp [Option.all, isScalar] at h
    | urls w => simp [Option.all, isScalar] at h
    | contacts w => simp [Option.all, isScalar] at h

/-- The leftover of one role's pops, as a pop chain. -/
theorem contactRest_eq (meta : Doc) (ek nk : Str) :
    contactRest meta ek nk = (dictPop (dictPop meta ek).2 nk).2 := rfl

/-- Scalar-string lookups are unchanged by popping another key. -/
theorem getStr_dictPop_ne (d : Doc) (k k' : Str) (h : k' ≠ k) :
    getStr (dictPop d k).2 k' = getStr d k' := by
  simp only [getStr, dictGet_dictPop_ne d k k' h]

/-- The consolidator, under the scalar-fields hypothesis, equals the
spec-worded construction: the role records (author first) are appended
as `contacts` when non-empty, over the four-fields-removed document. -/
theorem handleContacts_eq (meta : Doc)
    (h1 : (dictGet meta (str "author_email")).all isScalar)
    (h2 : (dictGet meta (str "author")).all isScalar)
    (h3 : (dictGet meta (str "maintainer_email")).all isScalar)
    (h4 : (dictGet meta (str "maintainer")).all isScalar) :
    handleContacts meta =
      (if (authorRecordSpec meta).toList ++
          (maintainerRecordSpec meta).toList = []
       then remContactFields meta
       else dictSet (remContactFields meta) (str "contacts")
         (MVal.contacts ((authorRecordSpec meta).toList ++
           (maintainerRecordSpec meta).toList))) := by
  have hsc2 : (dictGet (dictPop meta (str "author_email")).2 (str "author")).all
      isScalar := by
    rw [dictGet_dictPop_ne _ _ _ (by decide)]
    exact h2
  have hA1 : contactRecord meta (str "author_email") (str "author")
      (str "author") = authorRecordSpec meta := by
    simp only [contactRecord, authorRecordSpec, popStrField_snd]
    rw [popStrField_fst meta _ h1, popStrField_fst _ _ hsc2,
      getStr_dictPop_ne _ _ _ (by decide)]
  have hsc3 : (dictGet (contactRest meta (str "author_email") (str "author"))
      (str "maintainer_email")).all isScalar := by
    rw [contactRest_eq, dictGet_dictPop_ne _ _ _ (by decide),
      dictGet_dictPop_ne _ _ _ (by decide)]
    exact h3
  have hsc4 : (dictGet (dictPop (contactRest meta (str "author_email")
      (str "author")) (str "maintainer_email")).2 (str "maintainer")).all
      isScalar := by
    rw [dictGet_dictPop_ne _ _ _ (by decide), contactRest_eq,
      dictGet_dictPop_ne _ _ _ (by decide),
      dictGet_dictPop_ne _ _ _ (by decide)]
    exact h4
  have hM1 : contactRecord (contactRest meta (str "author_email") (str "author"))
      (str "maintainer_email") (str "maintainer") (str "maintainer") =
      maintainerRecordSpec meta := by
    simp only [contactRecord, maintainerRecordSpec, popStrField_snd]
    rw [popStrField_fst _ _ hsc3, popStrField_fst _ _ hsc4,
      getStr_dictPop_ne _ _ _ (by decide)]
    rw [show getStr (contactRest meta (str "author_email") (str "author"))
        (str "maintainer_email") = getStr meta (str "maintainer_email") by
      rw [contactRest_eq, getStr_dictPop_ne _ _ _ (by decide),
        getStr_dictPop_ne _ _ _ (by decide)]]
    rw [show getStr (contactRest meta (str "author_email") (str "author"))
        (str "maintainer") = getStr meta (str "maintainer") by
      rw [contactRest_eq, getStr_dictPop_ne _ _ _ (by decide),
        getStr_dictPop_ne _ _ _ (by decide)]]
  simp only [handleContacts, hA1, hM1, remContactFields]

/-- C7: over any duplicate-free document whose contact fields are
scalars, the consolidation removes the four raw fields, leaves every
other field untouched, and produces under `contacts` exactly one record
per role with at least one piece — each record carrying precisely the
pieces that were present and its role tag, the author record (if any)
before the maintainer record (if any); no record is created for a role
with neither piece (and with no contact data the document has no
`contacts` entry beyond what it already had). -/
theorem c7_contact_consolidation (meta : Doc)
    (hnd : (meta.map Prod.fst).Nodup)
    (hsc : ∀ k ∈ [str "author_email", str "author", str "maintainer_email",
      str "maintainer"], (dictGet meta k).all isScalar) :
    dictGet (handleContacts meta) (str "author") = none ∧
    dictGet (handleContacts meta) (str "author_email") = none ∧
    dictGet (handleContacts meta) (str "maintainer") = none ∧
    dictGet (handleContacts meta) (str "maintainer_email") = none ∧
    (∀ k : Str, k ≠ str "author" → k ≠ str "author_email" →
      k ≠ str "maintainer" → k ≠ str "maintainer_email" →
      k ≠ str "contacts" →
      dictGet (handleContacts meta) k = dictGet meta k) ∧
    dictGet (handleContacts meta) (str "contacts") =
      (if (authorRecordSpec meta).toList ++
          (maintainerRecordSpec meta).toList = []
       then dictGet meta (str "contacts")
       else some (MVal.contacts ((authorRecordSpec meta).toList ++
         (maintainerRecordSpec meta).toList))) := by
  have h1 := hsc (str "author_email") (by decide)
  have h2 := hsc (str "author") (by decide)
  have h3 := hsc (str "maintainer_email") (by decide)
  have h4 := hsc (str "maintainer") (by decide)
  have heq := handleContacts_eq meta h1 h2 h3 h4
  have hRa : dictGet (remContactFields meta) (str "author") = none := by
    simp only [remContactFields, contactRest_eq]
    rw [dictGet_dictPop_ne _ _ _ (by decide), dictGet_dictPop_ne _ _ _ (by decide)]
    exact dictGet_dictPop_self _ _ (nodup_dictPop _ _ hnd)
  have hRae : dictGet (remContactFields meta) (str "author_email") = none := by
    simp only [remContactFields, contactRest_eq]
    rw [dictGet_dictPop_ne _ _ _ (by decide), dictGet_dictPop_ne _ _ _ (by decide),
      dictGet_dictPop_ne _ _ _ (by decide)]
    exact dictGet_dictPop_self _ _ hnd
  have hRm : dictGet (remContactFields meta) (str "maintainer") = none := by
    simp only [remContactFields, contactRest_eq]
    exact dictGet_dictPop_self _ _
      (nodup_dictPop _ _ (nodup_dictPop _ _ (nodup_dictPop _ _ hnd)))
  have hRme : dictGet (remContactFields meta) (str "maintainer_email") = none := by
    simp only [remContactFields, contactRest_eq]
    rw [dictGet_dictPop_ne _ _ _ (by decide)]
    exact dictGet_dictPop_self _ _ (nodup_dictPop _ _ (nodup_dictPop _ _ hnd))
  have hRother : ∀ k' : Str, k' ≠ str "author" → k' ≠ str "author_email" →
      k' ≠ str "maintainer" → k' ≠ str "maintainer_email" →
      dictGet (remContactFields meta) k' = dictGet meta k' := by
    intro k' ha hae hm hme
    simp only [remContactFields, contactRest_eq]
    rw [dictGet_dictPop_ne _ _ _ hm, dictGet_dictPop_ne _ _ _ hme,
      dictGet_dictPop_ne _ _ _ ha, dictGet_dictPop_ne _ _ _ hae]
  rw [heq]
  by_cases hcs : (authorRecordSpec meta).toList ++
      (maintainerRecordSpec meta).toList = []
  · rw [if_pos hcs]
    refine ⟨hRa, hRae, hRm, hRme, ?_, ?_⟩
    · intro k ha hae hm hme _
      exact hRother k ha hae hm hme
    · rw [if_pos hcs]
      exact hRother _ (by decide) (by decide) (by decide) (by decide)
  · rw [if_neg hcs]
    refine ⟨?_, ?_, ?_, ?_, ?_, ?_⟩
    · rw [dictGet_dictSet_ne _ _ _ _ (by decide)]
      exact hRa
    · rw [dictGet_dictSet_ne _ _ _ _ (by decide)]
      exact hRae
    · rw [dictGet_dictSet_ne _ _ _ _ (by decide)]
      exact hRm
    · rw [dictGet_dictSet_ne _ _ _ _ (by decide)]
      exact hRme
    · intro k ha hae hm hme hc
      rw [dictGet_dictSet_ne _ _ _ _ hc]
      exact hRother k ha hae hm hme
    · rw [if_neg hcs, dictGet_dictSet_self]

/-- Witness for C7: `Author: Jane Doe`, `Author-email: jane@x.org` and
no maintainer fields give exactly one author record with both pieces,
and the raw field is gone. -/
theorem c7_contact_consolidation_witness :
    dictGet (handleContacts [(str "author", MVal.s (str "Jane Doe")),
      (str "author_email", MVal.s (str "jane@x.org")),
      (str "name", MVal.s (str "p"))]) (str "author") = none ∧
    dictGet (handleContacts [(str "author", MVal.s (str "Jane Doe")),
      (str "author_email", MVal.s (str "jane@x.org")),
      (str "name", MVal.s (str "p"))]) (str "contacts") =
      some (MVal.contacts [Contact.mk (some (str "jane@x.org"))
        (some (str "Jane Doe")) (str "author")]) := by
  have h := c7_contact_consolidation [(str "author", MVal.s (str "Jane Doe")),
    (str "author_email", MVal.s (str "jane@x.org")),
    (str "name", MVal.s (str "p"))] (by decide) (by decide)
  refine ⟨h.1, ?_⟩
  rw [h.2.2.2.2.2]
  decide

/-! ### Header-block lemmas for the reverse conversion -/

/-- `find?` ignores a suffix on which the predicate fails. -/
theorem find?_append_right_none {α : Type} (p : α → Bool) (l1 l2 : List α)
    (h : ∀ x ∈ l2, ¬ p x = true) :
    List.find? p (l1 ++ l2) = List.find? p l1 := by
  induction l1 with
  | nil =>
    simp only [List.nil_append]
    rw [List.find?_eq_none.2 (fun x hx => h x hx)]
    rfl
  | cons a l ih =>
    cases hpa : p a with
    | true =>
      rw [List.cons_append, List.find?_cons_of_pos _ hpa,
        List.find?_cons_of_pos _ hpa]
    | false =>
      rw [List.cons_append, List.find?_cons_of_neg _ (by simp [hpa]),
        List.find?_cons_of_neg _ (by simp [hpa])]
      exact ih

/-- Deleting a key distributes over an appended block of headers none
of which carry that key. -/
theorem delCI_append_no_match (h1 h2 : List (Str × Str)) (k : Str)
    (hno : ∀ kv ∈ h2, ¬ lowerStr kv.1 = lowerStr k) :
    delCI (h1 ++ h2) k = delCI h1 k ++ h2 := by
  unfold delCI
  rw [List.filter_append]
  congr 1
  apply List.filter_eq_self.2
  intro kv hkv
  simp [hno kv hkv]

/-- The inner Requires-Dist fold only appends Requires-Dist headers. -/
theorem foldReqs_headers (reqs : List Requirement) (cond : Str) (pi_ : PkgInfo) :
    ∃ app : List (Str × Str),
      (∀ kv ∈ app, kv.1 = str "Requires-Dist") ∧
      (reqs.foldl (fun acc r => appendHeader acc (str "Requires-Dist")
        (composeRequiresDist r cond)) pi_).headers = pi_.headers ++ app ∧
      (reqs.foldl (fun acc r => appendHeader acc (str "Requires-Dist")
        (composeRequiresDist r cond)) pi_).payload = pi_.payload := by
  induction reqs generalizing pi_ with
  | nil => exact ⟨[], by simp, by simp, rfl⟩
  | cons r rs ih =>
    obtain ⟨app, happ, hh, hp⟩ :=
      ih (appendHeader pi_ (str "Requires-Dist") (composeRequiresDist r cond))
    refine ⟨(str "Requires-Dist", composeRequiresDist r cond) :: app, ?_, ?_, ?_⟩
    · intro kv hkv
      rcases List.mem_cons.1 hkv with rfl | hm
      · rfl
      · exact happ kv hm
    · rw [List.foldl_cons, hh]
      simp [appendHeader]
    · rw [List.foldl_cons, hp]
      rfl

/-- The sections fold only appends Provides-Extra and Requires-Dist
headers, and never touches the payload. -/
theorem foldSections_headers (sections : List (Option Str × List Requirement))
    (pi_ : PkgInfo) :
    ∃ app : List (Str × Str),
      (∀ kv ∈ app, kv.1 = str "Provides-Extra" ∨ kv.1 = str "Requires-Dist") ∧
      (foldSections pi_ sections).headers = pi_.headers ++ app ∧
      (foldSections pi_ sections).payload = pi_.payload := by
  induction sections generalizing pi_ with
  | nil => exact ⟨[], by simp, by simp [foldSections], rfl⟩
  | cons sec rest ih =>
    obtain ⟨extra, reqs⟩ := sec
    have hcont : ∀ (pi1 : PkgInfo) (pe : List (Str × Str)),
        pi1.headers = pi_.headers ++ pe → pi1.payload = pi_.payload →
        (∀ kv ∈ pe, kv.1 = str "Provides-Extra" ∨ kv.1 = str "Requires-Dist") →
        ∃ app : List (Str × Str),
          (∀ kv ∈ app, kv.1 = str "Provides-Extra" ∨ kv.1 = str "Requires-Dist") ∧
          (foldSections (reqs.foldl (fun acc r => appendHeader acc
            (str "Requires-Dist") (composeRequiresDist r (conditionFor extra)))
            pi1) rest).headers = pi_.headers ++ app ∧
          (foldSections (reqs.foldl (fun acc r => appendHeader acc
            (str "Requires-Dist") (composeRequiresDist r (conditionFor extra)))
            pi1) rest).payload = pi_.payload := by
      intro pi1 pe hh hp hpe
      obtain ⟨app2, happ2, hh2, hp2⟩ :=
        foldReqs_headers reqs (conditionFor extra) pi1
      obtain ⟨app3, happ3, hh3, hp3⟩ := ih (reqs.foldl (fun acc r =>
        appendHeader acc (str "Requires-Dist")
          (composeRequiresDist r (conditionFor extra))) pi1)
      refine ⟨pe ++ app2 ++ app3, ?_, ?_, ?_⟩
      · intro kv hkv
        rcases List.mem_append.1 hkv with hm | hm
        · rcases List.mem_append.1 hm with hm2 | hm2
          · exact hpe kv hm2
          · exact Or.inr (happ2 kv hm2)
        · exact happ3 kv hm
      · rw [hh3, hh2, hh]
        simp [List.append_assoc]
      · rw [hp3, hp2, hp]
    cases extra with
    | none =>
      simpa only [foldSections] using
        hcont pi_ [] (by simp) rfl (by intro kv hkv; simp at hkv)
    | some e =>
      by_cases he : e ≠ []
      · have := hcont (appendHeader pi_ (str "Provides-Extra") e)
          [(str "Provides-Extra", e)] (by simp [appendHeader]) rfl
          (by intro kv hkv
              rw [List.mem_singleton] at hkv
              subst hkv
              exact Or.inl rfl)
        simpa only [foldSections, if_pos he] using this
      · simpa only [foldSections, if_neg he] using
          hcont pi_ [] (by simp) rfl (by intro kv hkv; simp at hkv)

/-- What a successful description phase does: a truthy Description
header is deleted, its normalized form becoming the payload; otherwise
the block passes through unchanged. -/
theorem descPhase_spec (pi2 out : PkgInfo) (h : descPhase pi2 = Except.ok out) :
    ((getCI pi2 (str "Description")).getD [] ≠ [] →
      out.headers = delCI pi2.headers (str "Description") ∧
      dedent_description ((getCI pi2 (str "Description")).getD []) =
        some out.payload) ∧
    ((getCI pi2 (str "Description")).getD [] = [] → out = pi2) := by
  unfold descPhase at h
  split at h
  next d hd =>
    rw [hd]
    split at h
    next hne =>
      split at h
      next dd hdd =>
        constructor
        · intro _
          have hout := Except.ok.inj h
          constructor
          · rw [← hout]
          · rw [Option.getD_some, hdd, ← hout]
        · intro hemp
          exact absurd hemp hne
      next => exact absurd h (by simp)
    next hne =>
      constructor
      · intro htr
        exact absurd (by simpa using htr) hne
      · intro _
        exact (Except.ok.inj h).symm
  next hd =>
    rw [hd]
    constructor
    · intro htr
      exact absurd rfl htr
    · intro _
      exact (Except.ok.inj h).symm

/-- C9: a successful reverse conversion changes the header block only
by (a) replacing the value of the first Metadata-Version header with
the fixed constant (`replaceFirstCI`, which leaves every other pair in
place), (b) appending headers that are all Provides-Extra or
Requires-Dist, and (c) — when the Description header is truthy —
deleting the Description headers and replacing the payload with the
normalized description; with no truthy description both headers and
payload pass through otherwise untouched. -/
theorem c9_reverse_frame (pi_ : PkgInfo)
    (listing : Option (List (Option Str × List Requirement))) (out : PkgInfo)
    (h : pkginfo_to_metadata pi_ listing = Except.ok out) :
    ∃ mvHeaders appended : List (Str × Str),
      replaceFirstCI pi_.headers (str "Metadata-Version") METADATA_VERSION =
        some mvHeaders ∧
      (∀ kv ∈ appended,
        kv.1 = str "Provides-Extra" ∨ kv.1 = str "Requires-Dist") ∧
      ((getCI (PkgInfo.mk mvHeaders pi_.payload) (str "Description")).getD []
          ≠ [] →
        out.headers = delCI mvHeaders (str "Description") ++ appended ∧
        dedent_description ((getCI (PkgInfo.mk mvHeaders pi_.payload)
          (str "Description")).getD []) = some out.payload) ∧
      ((getCI (PkgInfo.mk mvHeaders pi_.payload) (str "Description")).getD []
          = [] →
        out.headers = mvHeaders ++ appended ∧ out.payload = pi_.payload) := by
  unfold pkginfo_to_metadata at h
  split at h
  next => exact absurd h (by simp)
  next hs hrep =>
    refine ⟨hs, ?_⟩
    have hdesc : ∀ (pi2 : PkgInfo) (app : List (Str × Str)),
        descPhase pi2 = Except.ok out →
        (∀ kv ∈ app, kv.1 = str "Provides-Extra" ∨ kv.1 = str "Requires-Dist") →
        pi2.headers = hs ++ app → pi2.payload = pi_.payload →
        ∃ appended : List (Str × Str),
          (∀ kv ∈ appended,
            kv.1 = str "Provides-Extra" ∨ kv.1 = str "Requires-Dist") ∧
          ((getCI (PkgInfo.mk hs pi_.payload) (str "Description")).getD []
              ≠ [] →
            out.headers = delCI hs (str "Description") ++ appended ∧
            dedent_description ((getCI (PkgInfo.mk hs pi_.payload)
              (str "Description")).getD []) = some out.payload) ∧
          ((getCI (PkgInfo.mk hs pi_.payload) (str "Description")).getD []
              = [] →
            out.headers = hs ++ appended ∧ out.payload = pi_.payload) := by
      intro pi2 app hok happ hH hP
      have hnodesc : ∀ kv ∈ app,
          ¬ lowerStr kv.1 = lowerStr (str "Description") := by
        intro kv hkv
        rcases happ kv hkv with hk | hk <;> rw [hk] <;> decide
      have hget : getCI pi2 (str "Description") =
          getCI (PkgInfo.mk hs pi_.payload) (str "Description") := by
        unfold getCI
        rw [hH]
        exact congrArg (Option.map _) (find?_append_right_none _ hs app
          (by intro kv hkv
              simp only [beq_iff_eq]
              exact fun hc => hnodesc kv hkv (by simpa using hc)))
      have hps := descPhase_spec pi2 out hok
      refine ⟨app, happ, ?_, ?_⟩
      · intro htr
        obtain ⟨hOH, hOP⟩ := hps.1 (by rw [hget]; exact htr)
        constructor
        · rw [hOH, hH, delCI_append_no_match hs app _ hnodesc]
        · rw [← hget]
          exact hOP
      · intro hfa
        have hout := hps.2 (by rw [hget]; exact hfa)
        constructor
        · rw [hout, hH]
        · rw [hout, hP]
    cases listing with
    | none =>
      obtain ⟨appended, h1, h2, h3⟩ := hdesc (PkgInfo.mk hs pi_.payload) [] h
        (by intro kv hkv; simp at hkv) (by simp) rfl
      exact ⟨appended, hrep, h1, h2, h3⟩
    | some sections =>
      obtain ⟨app, happ, hH, hP⟩ :=
        foldSections_headers sections (PkgInfo.mk hs pi_.payload)
      obtain ⟨appended, h1, h2, h3⟩ :=
        hdesc (foldSections (PkgInfo.mk hs pi_.payload) sections) app h happ hH hP
      exact ⟨appended, hrep, h1, h2, h3⟩

/-- Witness for C9 on a concrete block and listing: the conversion
succeeds, and applying the frame theorem yields the normalized
description as the output payload. -/
theorem c9_reverse_frame_witness :
    dedent_description ((getCI (PkgInfo.mk
      [(str "Metadata-Version", str "2.0"), (str "Name", str "foo"),
       (str "Description", str "hello\n  world")] [])
      (str "Description")).getD []) = some (str "hello\nworld\n\n") := by
  obtain ⟨mvH, app, hrep, -, htr, -⟩ := c9_reverse_frame
    (PkgInfo.mk [(str "Metadata-Version", str "1.1"), (str "Name", str "foo"),
      (str "Description", str "hello\n  world")] [])
    (some [(none, [Requirement.mk (str "pkgA") [] []]),
           (some (str "dev"),
            [Requirement.mk (str "bar") [] [(str ">=", str "1.0")]])])
    (PkgInfo.mk
      [(str "Metadata-Version", str "2.0"), (str "Name", str "foo"),
       (str "Requires-Dist", str "pkgA"), (str "Provides-Extra", str "dev"),
       (str "Requires-Dist",
        str "bar (>=1.0); extra == " ++ (sq :: (str "dev" ++ [sq])))]
      (str "hello\nworld\n\n"))
    rfl
  have h0 : replaceFirstCI [(str "Metadata-Version", str "1.1"),
      (str "Name", str "foo"), (str "Description", str "hello\n  world")]
      (str "Metadata-Version") METADATA_VERSION =
      some [(str "Metadata-Version", str "2.0"), (str "Name", str "foo"),
        (str "Description", str "hello\n  world")] := by decide
  rw [h0] at hrep
  have hmv := (Option.some.inj hrep).symm
  subst hmv
  exact (htr (by decide)).2

end Wheel
